import Mathlib

/-!
Verification of `functionary/train/train.py`, a fine-tuning driver for a
causal language model.  The Python functions are shallowly embedded as Lean
functions: tensors become (nested) lists, machine floats become `ℝ` (with
`Real.exp`/`Real.log` for `math.exp` and the cross-entropy kernel), Python
exceptions become `Except`, and the in-place shuffling / embedding surgery
becomes explicit state passing.
-/

namespace Train

/-! ### RoPE-scaling config patch (train.py lines 106-115) -/

/-- A model config as far as the RoPE-scaling patch is concerned:
`max_position_embeddings` (possibly absent), `rope_scaling`
(a `(type, factor)` pair or `None`), and `use_cache`. -/
structure ModelConfig where
  maxPositionEmbeddings : Option Int
  ropeScaling : Option (String × ℚ)
  useCache : Bool

/-- Lines 111-115 of `train()`: if `max_position_embeddings` is present and
truthy (non-zero) and `model_max_length` exceeds it, set
`config.rope_scaling` to a linear scaling whose factor is
`float(math.ceil(model_max_length / orig_ctx_len))`; then set
`config.use_cache = False`. -/
def setRopeScaling (modelMaxLength : Int) (cfg : ModelConfig) : ModelConfig :=
  let cfg1 :=
    match cfg.maxPositionEmbeddings with
    | none => cfg
    | some origCtxLen =>
      if origCtxLen ≠ 0 ∧ modelMaxLength > origCtxLen then
        { cfg with
            ropeScaling :=
              some ("linear", ((⌈(modelMaxLength : ℚ) / (origCtxLen : ℚ)⌉ : ℤ) : ℚ)) }
      else cfg
  { cfg1 with useCache := false }

/-! ### Checkpoint-resume decision and trailing saves (train.py lines 210-215) -/

/-- The externally visible calls made by the tail of `train()`. -/
inductive TrainAction where
  | trainResume
  | trainFresh
  | saveState
  | saveModel
deriving DecidableEq, Repr

/-- Whether a directory-entry name matches the glob pattern
`checkpoint-*`: the literal prefix `checkpoint-` followed by anything. -/
def matchesCheckpointGlob (name : String) : Bool :=
  "checkpoint-".data.isPrefixOf name.data

/-- Lines 210-215 of `train()`: call `trainer.train(resume_from_checkpoint=True)`
when the output directory has an entry matching `checkpoint-*`, else
`trainer.train()`; afterwards `trainer.save_state()` and the final model
save run unconditionally. The result is the sequence of calls made. -/
def trainRunAndSave (outputDirEntries : List String) : List TrainAction :=
  (if outputDirEntries.any matchesCheckpointGlob then
      [TrainAction.trainResume]
    else
      [TrainAction.trainFresh])
    ++ [TrainAction.saveState, TrainAction.saveModel]

/-! ### safe_save_model_for_hf_trainer (train.py lines 51-57) -/

/-- The device a tensor lives on. -/
inductive Device where
  | cpu
  | cuda
deriving DecidableEq, Repr

/-- A tensor, abstracted to its device plus an opaque payload. -/
structure Tensor where
  device : Device
  payload : List ℚ
deriving DecidableEq, Repr

/-- `value.cpu()`: the same payload moved to the CPU. -/
def tensorToCpu (t : Tensor) : Tensor :=
  { t with device := Device.cpu }

/-- One `trainer._save(output_dir, state_dict=...)` call. -/
structure SaveCall where
  outputDir : String
  stateDict : List (String × Tensor)
deriving DecidableEq, Repr

/-- `safe_save_model_for_hf_trainer`: when `trainer.args.should_save`, copy
every state-dict tensor to CPU and call `trainer._save` once; otherwise do
nothing. The result is the list of save calls performed. -/
def safe_save_model_for_hf_trainer (shouldSave : Bool) (outputDir : String)
    (stateDict : List (String × Tensor)) : List SaveCall :=
  if shouldSave then
    [⟨outputDir, stateDict.map (fun kv => (kv.1, tensorToCpu kv.2))⟩]
  else
    []

/-! ### random.shuffle and dataset construction (train.py lines 131-151) -/

/-- Swap the elements at positions `i` and `j` (a no-op when either index
is out of range), as the body of `random.shuffle` does. -/
def listSwap {α : Type} (l : List α) (i j : Nat) : List α :=
  match l[i]?, l[j]? with
  | some x, some y => (l.set i y).set j x
  | _, _ => l

/-- The Fisher-Yates loop of `random.shuffle`: for `i` from `n-1` down to
`1`, draw `j = rand i % (i+1)` and swap positions `i` and `j`.  `rand`
supplies the random draws. -/
def shuffleGo {α : Type} (rand : Nat → Nat) : Nat → List α → List α
  | 0, l => l
  | i + 1, l => shuffleGo rand i (listSwap l (i + 1) (rand (i + 1) % (i + 2)))

/-- `random.shuffle(x)` modelled functionally: run the Fisher-Yates loop
from index `len(x) - 1` down to `1`. -/
def shuffleFY {α : Type} (rand : Nat → Nat) (l : List α) : List α :=
  shuffleGo rand (l.length - 1) l

/-- Modelled from the spec: `CustomDataset` lives in
`functionary/train/datasets.py`, which is not under `src/`.  The spec says
`train()` "constructs train/eval datasets" from the loaded records, so the
dataset is modelled as holding the list of records handed to it. -/
structure CustomDataset (α : Type) where
  rawData : List α
deriving DecidableEq, Repr

/-- Lines 131-135 and 142 of `train()`: assert that a training-data path
was given (raising `AssertionError("Please provide a training data file.")`
otherwise), parse each line of the file as JSON, shuffle the records, and
build a `CustomDataset` from them.  `trainLines` is the file's lines when
the path was provided, `parse` is `json.loads`. -/
def buildTrainDataset {α : Type} (parse : String → α) (rand : Nat → Nat)
    (trainLines : Option (List String)) : Except String (CustomDataset α) :=
  match trainLines with
  | none => Except.error "Please provide a training data file."
  | some lines => Except.ok ⟨shuffleFY rand (lines.map parse)⟩

/-- Lines 137-140 and 147-148 of `train()`: `raw_eval_data` is assigned
only when `eval_data_path` is provided; when `do_eval` is set the eval
dataset is built from `raw_eval_data`, which raises a `NameError` if that
variable was never assigned. -/
def buildEvalDataset {α : Type} (parse : String → α) (rand : Nat → Nat)
    (doEval : Bool) (evalLines : Option (List String)) :
    Except String (Option (CustomDataset α)) :=
  let rawEvalData : Option (List α) :=
    evalLines.map (fun lines => shuffleFY rand (lines.map parse))
  if doEval then
    match rawEvalData with
    | none => Except.error "NameError: name raw_eval_data is not defined"
    | some d => Except.ok (some ⟨d⟩)
  else
    Except.ok none

/-! ### compute_metrics (train.py lines 169-190) -/

/-- A `ZeroDivisionError` raised by `compute_metrics`, tagged by which of
its two unguarded divisions raised it. -/
inductive MetricsError where
  | lossMeanDivByZero
  | accuracyDivByZero
deriving DecidableEq, Repr

/-- One step of the accuracy loop: positions whose label is `-100` are
skipped; otherwise the total is bumped, and the hit count too when the
label equals the prediction. -/
def accStep (acc : Nat × Nat) (p : Int × Int) : Nat × Nat :=
  if p.2 ≠ -100 then
    if p.2 = p.1 then (acc.1 + 1, acc.2 + 1) else (acc.1, acc.2 + 1)
  else acc

/-- The accuracy loop of `compute_metrics` over `(pred, label)` pairs,
returning `(acc_count, total_num)`. -/
def accuracyCounts (pairs : List (Int × Int)) : Nat × Nat :=
  pairs.foldl accStep (0, 0)

/-- A position counted in the accuracy numerator: label not `-100` and
label equal to the prediction. -/
def accHit (p : Int × Int) : Bool :=
  decide (p.2 ≠ -100 ∧ p.2 = p.1)

/-- A position counted in the accuracy denominator: label not `-100`. -/
def accValid (p : Int × Int) : Bool :=
  decide (p.2 ≠ -100)

/-- Lines 171-178 of `compute_metrics`: drop the last column of
`predictions[0]`, drop the first column of the labels, flatten both in row
order and zip them into `(pred, label)` pairs. -/
def shiftedPairs (predIds labelIds : List (List Int)) : List (Int × Int) :=
  ((predIds.map (fun r => r.dropLast)).flatten).zip
    ((labelIds.map (fun r => r.drop 1)).flatten)

/-- The metrics dict returned by `compute_metrics`. -/
structure Metrics where
  accuracy : ℚ
  perplexity : ℝ

/-- `compute_metrics`: next-token accuracy over the shifted positions and
perplexity as `math.exp` of the mean of the per-example losses.  The two
Python divisions are unguarded; they raise `ZeroDivisionError` in the
order the interpreter reaches them (the loss mean on line 187 first, the
accuracy ratio on line 190 second). -/
noncomputable def compute_metrics (predIds labelIds : List (List Int))
    (losses : List ℝ) : Except MetricsError Metrics :=
  let counts := accuracyCounts (shiftedPairs predIds labelIds)
  if losses.length = 0 then
    Except.error MetricsError.lossMeanDivByZero
  else
    let meanLoss : ℝ := losses.sum / (losses.length : ℝ)
    let perplexity : ℝ := Real.exp meanLoss
    if counts.2 = 0 then
      Except.error MetricsError.accuracyDivByZero
    else
      Except.ok ⟨(counts.1 : ℚ) / (counts.2 : ℚ), perplexity⟩

/-! ### initialize_tokenizer (train.py lines 60-97) -/

/-- A tokenizer as far as `initialize_tokenizer` is concerned: its vocab
(in insertion order), its unk token, its pad token and its
`additional_special_tokens` attribute. -/
structure PyTokenizer where
  tokens : List String
  unkToken : String
  padToken : Option String
  additionalSpecialTokens : List String
deriving DecidableEq, Repr

/-- `tokenizer.add_special_tokens({"additional_special_tokens": vals})`:
record `vals` as the additional special tokens, append those not already
in the vocab, and return the number of newly added tokens. -/
def add_special_tokens (tok : PyTokenizer) (vals : List String) :
    PyTokenizer × Nat :=
  let newToks := vals.filter (fun v => !tok.tokens.contains v)
  ({ tok with
      tokens := tok.tokens ++ newToks
      additionalSpecialTokens := vals },
   newToks.length)

/-- `model.resize_token_embeddings(newLen)` on one embedding matrix:
truncate to `newLen` rows, or extend with freshly initialized rows drawn
from `fresh`. -/
def resizeRows (fresh : Nat → List ℚ) (newLen : Nat)
    (emb : List (List ℚ)) : List (List ℚ) :=
  if newLen ≤ emb.length then emb.take newLen
  else emb ++ (List.range (newLen - emb.length)).map fresh

/-- Pointwise sum of a stack of rows. -/
def sumRows : List (List ℚ) → List ℚ
  | [] => []
  | [r] => r
  | r :: rs => List.zipWith (· + ·) r (sumRows rs)

/-- `rows.mean(dim=0)`: the pointwise mean of a stack of rows. -/
def meanRow (rows : List (List ℚ)) : List ℚ :=
  (sumRows rows).map (fun x => x / (rows.length : ℚ))

/-- `emb[-n:] = row`: overwrite the last `n` rows with (broadcasts of)
`row`. -/
def setLastRows (emb : List (List ℚ)) (n : Nat) (row : List ℚ) :
    List (List ℚ) :=
  emb.take (emb.length - n) ++ List.replicate (min n emb.length) row

/-- The model state touched by `initialize_tokenizer`: input and output
embedding matrices. -/
structure PyModel where
  inputEmbeddings : List (List ℚ)
  outputEmbeddings : List (List ℚ)
deriving DecidableEq, Repr

/-- `initialize_tokenizer` (lines 60-97): set the pad token to the unk
token, add every `EndToken` member value as an additional special token,
resize the embeddings to the new tokenizer length and, when tokens were
actually added, overwrite the last `num_new_tokens` rows of both embedding
matrices with the mean of the rows before them.  `endTokens` stands for
`[e.value for e in EndToken]` (the `EndToken` enum lives in
`functionary/prompt.py`, outside this file) and `freshIn`/`freshOut` for
the framework's random initialization of newly created rows. -/
def initialize_tokenizer (endTokens : List String)
    (freshIn freshOut : Nat → List ℚ) (tok0 : PyTokenizer) (model : PyModel) :
    PyTokenizer × PyModel :=
  let tok1 := { tok0 with padToken := some tok0.unkToken }
  let res := add_special_tokens tok1 endTokens
  let tok2 := res.1
  let numNewTokens := res.2
  let newLen := tok2.tokens.length
  let inputEmb := resizeRows freshIn newLen model.inputEmbeddings
  let outputEmb := resizeRows freshOut newLen model.outputEmbeddings
  if numNewTokens > 0 then
    let inputAvg := meanRow (inputEmb.take (inputEmb.length - numNewTokens))
    let outputAvg := meanRow (outputEmb.take (outputEmb.length - numNewTokens))
    (tok2,
     ⟨setLastRows inputEmb numNewTokens inputAvg,
      setLastRows outputEmb numNewTokens outputAvg⟩)
  else
    (tok2, ⟨inputEmb, outputEmb⟩)

/-! ### preprocess_logits_for_metrics (train.py lines 153-167) -/

/-- `tensor.view(b, -1)`: reinterpret a flat list as `b` rows of
`l.length / b` entries each. -/
def viewRows {α : Type} (b : Nat) (l : List α) : List (List α) :=
  (List.range b).map (fun i => (l.drop (i * (l.length / b))).take (l.length / b))

/-- `torch.argmax` over one logits row: the first index attaining the
maximum. -/
noncomputable def argmaxIdx (l : List ℝ) : Nat :=
  (List.range l.length).foldl
    (fun best i => if l.getD best 0 < l.getD i 0 then i else best) 0

/-- One element of `CrossEntropyLoss(reduction="none")`:
`-log softmax(logits)[target]`, and `0` when the target is the default
`ignore_index` of `-100`. -/
noncomputable def crossEntropyLoss (logits : List ℝ) (target : Int) : ℝ :=
  if target = -100 then 0
  else Real.log ((logits.map Real.exp).sum) - logits.getD target.toNat 0

/-- `preprocess_logits_for_metrics` (lines 153-167): greedy predictions by
`argmax` over the vocab dimension, then per-example mean of the
cross-entropy over the shifted positions: `logits[..., :-1, :]` is
reshaped to `(-1, len(tokenizer))`, the shifted labels to `(-1,)`, the
elementwise losses are reshaped to `(batch, -1)` and averaged over the
last dimension.  `vocab` is `len(tokenizer)`. -/
noncomputable def preprocess_logits_for_metrics (vocab : Nat)
    (logits : List (List (List ℝ))) (labels : List (List Int)) :
    List (List Nat) × List ℝ :=
  let pred_ids := logits.map (fun seq => seq.map argmaxIdx)
  let shiftLogitsFlat := ((logits.map (fun seq => seq.dropLast)).flatten).flatten
  let shift_logits := viewRows (shiftLogitsFlat.length / vocab) shiftLogitsFlat
  let shift_labels := (labels.map (fun seq => seq.drop 1)).flatten
  let lossFlat := (shift_logits.zip shift_labels).map
      (fun p => crossEntropyLoss p.1 p.2)
  let loss := (viewRows logits.length lossFlat).map
      (fun row => row.sum / (row.length : ℝ))
  (pred_ids, loss)

end Train

namespace Train

/-! ### Permutation facts about the shuffle -/

/-- Replacing position `k` (which holds `y`) by `a` and re-consing `y` in
front is a permutation of consing `a` in front. -/
theorem cons_set_perm {α : Type} :
    ∀ (t : List α) (k : Nat) (a y : α), t[k]? = some y →
      (y :: t.set k a).Perm (a :: t) := by
  intro t
  induction t with
  | nil => intro k a y h; simp at h
  | cons b t2 ih =>
    intro k a y h
    cases k with
    | zero =>
      simp only [List.getElem?_cons_zero, Option.some.injEq] at h
      subst h
      simpa using List.Perm.swap a b t2
    | succ k2 =>
      simp only [List.getElem?_cons_succ] at h
      simp only [List.set_cons_succ]
      exact ((List.Perm.swap b y (t2.set k2 a)).trans
        (List.Perm.cons b (ih k2 a y h))).trans (List.Perm.swap a b t2)

/-- Swapping two positions of a list is a permutation. -/
theorem listSwap_perm {α : Type} :
    ∀ (l : List α) (i j : Nat), (listSwap l i j).Perm l := by
  intro l
  induction l with
  | nil => intro i j; cases i <;> cases j <;> simp [listSwap]
  | cons a t ih =>
    intro i j
    cases hi : (a :: t)[i]? with
    | none => simp [listSwap, hi]
    | some x =>
      cases hj : (a :: t)[j]? with
      | none => simp [listSwap, hi, hj]
      | some y =>
        simp only [listSwap, hi, hj]
        cases i with
        | zero =>
          simp only [List.getElem?_cons_zero, Option.some.injEq] at hi
          subst hi
          cases j with
          | zero =>
            simp only [List.getElem?_cons_zero, Option.some.injEq] at hj
            subst hj
            simp
          | succ j2 =>
            simp only [List.getElem?_cons_succ] at hj
            simpa using cons_set_perm t j2 a y hj
        | succ i2 =>
          simp only [List.getElem?_cons_succ] at hi
          cases j with
          | zero =>
            simp only [List.getElem?_cons_zero, Option.some.injEq] at hj
            subst hj
            simpa using cons_set_perm t i2 a x hi
          | succ j2 =>
            simp only [List.getElem?_cons_succ] at hj
            simp only [List.set_cons_succ]
            exact List.Perm.cons a (by
              have := ih i2 j2
              simpa [listSwap, hi, hj] using this)

/-- The Fisher-Yates loop permutes its input. -/
theorem shuffleGo_perm {α : Type} (rand : Nat → Nat) :
    ∀ (i : Nat) (l : List α), (shuffleGo rand i l).Perm l := by
  intro i
  induction i with
  | zero => intro l; exact List.Perm.refl l
  | succ i2 ih =>
    intro l
    exact (ih _).trans (listSwap_perm l (i2 + 1) (rand (i2 + 1) % (i2 + 2)))

/-- `random.shuffle` permutes its input. -/
theorem shuffleFY_perm {α : Type} (rand : Nat → Nat) (l : List α) :
    (shuffleFY rand l).Perm l :=
  shuffleGo_perm rand (l.length - 1) l

/-! ### Theorems for C1, C6, C8 -/

/-- C1: if the loaded config has a truthy `max_position_embeddings` value
`o` and `model_max_length > o`, `rope_scaling` becomes
`{"type": "linear", "factor": ceil(model_max_length / o)}`; if the bound is
not exceeded, or the attribute is absent or falsy, `rope_scaling` is left
unchanged. -/
theorem rope_scaling_cases (mml : Int) (cfg : ModelConfig) :
    (∀ o : Int, cfg.maxPositionEmbeddings = some o → o ≠ 0 → mml > o →
        (setRopeScaling mml cfg).ropeScaling =
          some ("linear", ((⌈(mml : ℚ) / (o : ℚ)⌉ : ℤ) : ℚ)))
    ∧ (∀ o : Int, cfg.maxPositionEmbeddings = some o → ¬(o ≠ 0 ∧ mml > o) →
        (setRopeScaling mml cfg).ropeScaling = cfg.ropeScaling)
    ∧ (cfg.maxPositionEmbeddings = none →
        (setRopeScaling mml cfg).ropeScaling = cfg.ropeScaling) := by
  refine ⟨fun o ho hne hgt => ?_, fun o ho hnot => ?_, fun ho => ?_⟩
  · simp [setRopeScaling, ho, hne, hgt]
  · simp only [setRopeScaling, ho]
    rw [if_neg hnot]
  · simp [setRopeScaling, ho]

/-- C1 witness: a config with `max_position_embeddings = 4096` and
`model_max_length = 16384` gets linear RoPE scaling with factor 4. -/
theorem rope_scaling_cases_witness :
    (setRopeScaling 16384
        ⟨some 4096, none, true⟩).ropeScaling = some ("linear", (4 : ℚ)) := by
  have h := (rope_scaling_cases 16384 ⟨some 4096, none, true⟩).1 4096 rfl
      (by decide) (by decide)
  rw [h]
  norm_num

/-- C6: the tail of `train()` resumes from a checkpoint exactly when some
output-directory entry matches `checkpoint-*`, trains afresh exactly when
none does, and in both cases `save_state` and the final model save follow. -/
theorem train_resume_iff_checkpoint (entries : List String) :
    (trainRunAndSave entries =
        [TrainAction.trainResume, TrainAction.saveState, TrainAction.saveModel]
      ↔ ∃ e ∈ entries, matchesCheckpointGlob e = true)
    ∧ (trainRunAndSave entries =
        [TrainAction.trainFresh, TrainAction.saveState, TrainAction.saveModel]
      ↔ ¬∃ e ∈ entries, matchesCheckpointGlob e = true) := by
  by_cases h : ∃ e ∈ entries, matchesCheckpointGlob e = true
  · have hb : entries.any matchesCheckpointGlob = true := List.any_eq_true.mpr h
    simp [trainRunAndSave, hb, h]
  · have hb : ¬entries.any matchesCheckpointGlob = true :=
      fun hc => h (List.any_eq_true.mp hc)
    simp [trainRunAndSave, hb, h]

/-- C6 witness: with entries `["checkpoint-500", "log.txt"]` the tail
resumes from the checkpoint and then saves state and model. -/
theorem train_resume_iff_checkpoint_witness :
    trainRunAndSave ["checkpoint-500", "log.txt"] =
      [TrainAction.trainResume, TrainAction.saveState, TrainAction.saveModel] :=
  (train_resume_iff_checkpoint ["checkpoint-500", "log.txt"]).1.mpr
    ⟨"checkpoint-500", by simp, by decide⟩

/-- C8: `safe_save_model_for_hf_trainer` writes nothing when
`should_save` is false; when it is true it performs exactly one save, to
the given output directory, of the state dict with every tensor copied to
CPU. -/
theorem safe_save_spec (shouldSave : Bool) (dir : String)
    (sd : List (String × Tensor)) :
    (shouldSave = false → safe_save_model_for_hf_trainer shouldSave dir sd = [])
    ∧ (shouldSave = true →
        ∃ c, safe_save_model_for_hf_trainer shouldSave dir sd = [c]
          ∧ c.outputDir = dir
          ∧ c.stateDict = sd.map (fun kv => (kv.1, tensorToCpu kv.2))
          ∧ ∀ kv ∈ c.stateDict, kv.2.device = Device.cpu) := by
  constructor
  · intro h
    simp [safe_save_model_for_hf_trainer, h]
  · intro h
    refine ⟨⟨dir, sd.map (fun kv => (kv.1, tensorToCpu kv.2))⟩, ?_, rfl, rfl, ?_⟩
    · simp [safe_save_model_for_hf_trainer, h]
    · intro kv hkv
      simp only [List.mem_map] at hkv
      obtain ⟨kv0, _, rfl⟩ := hkv
      rfl

/-- C8 witness: with `should_save = true` one save call happens and its
tensor is on CPU; with `should_save = false` no call happens. -/
theorem safe_save_spec_witness :
    safe_save_model_for_hf_trainer false "out" [("w", ⟨Device.cuda, [1]⟩)] = []
    ∧ ∃ c, safe_save_model_for_hf_trainer true "out" [("w", ⟨Device.cuda, [1]⟩)] = [c]
        ∧ c.outputDir = "out"
        ∧ c.stateDict = [("w", ⟨Device.cpu, [1]⟩)]
        ∧ ∀ kv ∈ c.stateDict, kv.2.device = Device.cpu := by
  refine ⟨(safe_save_spec false "out" [("w", ⟨Device.cuda, [1]⟩)]).1 rfl, ?_⟩
  obtain ⟨c, hc, hdir, hdict, hcpu⟩ :=
    (safe_save_spec true "out" [("w", ⟨Device.cuda, [1]⟩)]).2 rfl
  exact ⟨c, hc, hdir, by rw [hdict]; rfl, hcpu⟩

/-- C7: `train()` raises `AssertionError("Please provide a training data
file.")` exactly when no training-data path was given; otherwise the
training dataset is a `CustomDataset` holding the file's JSON-parsed lines
shuffled, so its records form the same multiset as the parsed lines. -/
theorem train_dataset_spec {α : Type} (parse : String → α) (rand : Nat → Nat)
    (trainLines : Option (List String)) :
    (buildTrainDataset parse rand trainLines =
        Except.error "Please provide a training data file." ↔ trainLines = none)
    ∧ ∀ lines, trainLines = some lines →
        ∃ ds, buildTrainDataset parse rand trainLines = Except.ok ds
          ∧ (ds.rawData : Multiset α) = (lines.map parse : Multiset α) := by
  constructor
  · cases trainLines with
    | none => simp [buildTrainDataset]
    | some lines => simp [buildTrainDataset]
  · intro lines h
    subst h
    exact ⟨⟨shuffleFY rand (lines.map parse)⟩, rfl,
      Multiset.coe_eq_coe.mpr (shuffleFY_perm rand (lines.map parse))⟩

/-- C7 witness: with two JSON lines the dataset holds a permutation of the
parsed records, and with no path the assertion error is raised. -/
theorem train_dataset_spec_witness :
    (∃ ds, buildTrainDataset String.length (fun i => i) (some ["ab", "c"]) =
        Except.ok ds
      ∧ (ds.rawData : Multiset Nat) = (["ab", "c"].map String.length : Multiset Nat))
    ∧ buildTrainDataset String.length (fun i => i) (none : Option (List String)) =
        Except.error "Please provide a training data file." :=
  ⟨(train_dataset_spec String.length (fun i => i) (some ["ab", "c"])).2
      ["ab", "c"] rfl,
   (train_dataset_spec String.length (fun i => i) none).1.mpr rfl⟩

/-- C9: the eval-dataset construction succeeds exactly when `do_eval`
implies an eval-data path was provided; with `do_eval` set and no path,
`raw_eval_data` is unbound and a `NameError` results. -/
theorem eval_dataset_name_error {α : Type} (parse : String → α) (rand : Nat → Nat)
    (doEval : Bool) (evalLines : Option (List String)) :
    ((∃ v, buildEvalDataset parse rand doEval evalLines = Except.ok v) ↔
        (doEval = true → evalLines ≠ none))
    ∧ (doEval = true → evalLines = none →
        buildEvalDataset parse rand doEval evalLines =
          Except.error "NameError: name raw_eval_data is not defined") := by
  constructor
  · cases doEval <;> cases evalLines <;> simp [buildEvalDataset]
  · intro hd he
    subst hd
    subst he
    simp [buildEvalDataset]

/-- C9 witness: with `do_eval = true` and no eval path the construction
fails with the `NameError`; providing a path makes it succeed. -/
theorem eval_dataset_name_error_witness :
    buildEvalDataset String.length (fun i => i) true (none : Option (List String)) =
      Except.error "NameError: name raw_eval_data is not defined"
    ∧ ∃ v, buildEvalDataset String.length (fun i => i) true (some ["x"]) =
        Except.ok v :=
  ⟨(eval_dataset_name_error String.length (fun i => i) true none).2 rfl rfl,
   (eval_dataset_name_error String.length (fun i => i) true (some ["x"])).1.mpr
      (fun _ h => Option.some_ne_none _ h)⟩

/-! ### Theorems about compute_metrics (C3, C4, C10) -/

/-- The accuracy fold computes the two `countP`s, from any starting
accumulator. -/
theorem accStep_foldl (pairs : List (Int × Int)) :
    ∀ a b : Nat, pairs.foldl accStep (a, b) =
      (a + pairs.countP accHit, b + pairs.countP accValid) := by
  induction pairs with
  | nil => intro a b; simp
  | cons p rest ih =>
    intro a b
    by_cases h2 : p.2 = -100
    · have hstep : accStep (a, b) p = (a, b) := by simp [accStep, h2]
      have hc1 : (p :: rest).countP accHit = rest.countP accHit := by
        rw [List.countP_cons]
        simp [accHit, h2]
      have hc2 : (p :: rest).countP accValid = rest.countP accValid := by
        rw [List.countP_cons]
        simp [accValid, h2]
      rw [List.foldl_cons, hstep, ih, hc1, hc2]
    · by_cases heq : p.2 = p.1
      · have hstep : accStep (a, b) p = (a + 1, b + 1) := by
          simp only [accStep]
          rw [if_pos h2, if_pos heq]
        have hhit : accHit p = true := by
          simp only [accHit, decide_eq_true_eq]
          exact ⟨h2, heq⟩
        have hc1 : (p :: rest).countP accHit = rest.countP accHit + 1 := by
          rw [List.countP_cons, hhit]
          simp
        have hc2 : (p :: rest).countP accValid = rest.countP accValid + 1 := by
          rw [List.countP_cons]
          simp [accValid, h2]
        rw [List.foldl_cons, hstep, ih, hc1, hc2, Prod.mk.injEq]
        exact ⟨by omega, by omega⟩
      · have hstep : accStep (a, b) p = (a, b + 1) := by
          simp only [accStep]
          rw [if_pos h2, if_neg heq]
        have hhit : accHit p = false := by
          simp only [accHit, decide_eq_false_iff_not]
          exact fun hc => heq hc.2
        have hc1 : (p :: rest).countP accHit = rest.countP accHit := by
          rw [List.countP_cons, hhit]
          simp
        have hc2 : (p :: rest).countP accValid = rest.countP accValid + 1 := by
          rw [List.countP_cons]
          simp [accValid, h2]
        rw [List.foldl_cons, hstep, ih, hc1, hc2, Prod.mk.injEq]
        exact ⟨rfl, by omega⟩

/-- The accuracy loop returns exactly the hit count and the valid-position
count. -/
theorem accuracyCounts_eq (pairs : List (Int × Int)) :
    accuracyCounts pairs = (pairs.countP accHit, pairs.countP accValid) := by
  have h := accStep_foldl pairs 0 0
  simpa [accuracyCounts] using h

/-- On the happy path `compute_metrics` returns the countP ratio as
accuracy and `exp` of the loss mean as perplexity. -/
theorem compute_metrics_ok (predIds labelIds : List (List Int))
    (losses : List ℝ) (hl : losses.length ≠ 0)
    (ht : (shiftedPairs predIds labelIds).countP accValid ≠ 0) :
    compute_metrics predIds labelIds losses =
      Except.ok ⟨((shiftedPairs predIds labelIds).countP accHit : ℚ) /
          ((shiftedPairs predIds labelIds).countP accValid : ℚ),
        Real.exp (losses.sum / (losses.length : ℝ))⟩ := by
  simp [compute_metrics, accuracyCounts_eq, hl, ht]

/-- C3: on the happy path, the returned accuracy is the number of shifted
positions whose label is not `-100` and equals the prediction, divided by
the number of shifted positions whose label is not `-100`. -/
theorem compute_metrics_accuracy (predIds labelIds : List (List Int))
    (losses : List ℝ) (hl : losses ≠ [])
    (ht : (shiftedPairs predIds labelIds).countP accValid ≠ 0) :
    ∃ m, compute_metrics predIds labelIds losses = Except.ok m
      ∧ m.accuracy =
          ((shiftedPairs predIds labelIds).countP accHit : ℚ) /
            ((shiftedPairs predIds labelIds).countP accValid : ℚ) := by
  have hlen : losses.length ≠ 0 := fun h => hl (List.length_eq_zero.mp h)
  exact ⟨_, compute_metrics_ok predIds labelIds losses hlen ht, rfl⟩

/-- C3 witness: one valid position, predicted correctly, gives accuracy
`1 / 1`. -/
theorem compute_metrics_accuracy_witness :
    ∃ m, compute_metrics [[3, 9]] [[-100, 3]] [(1 : ℝ)] = Except.ok m
      ∧ m.accuracy =
          ((shiftedPairs [[3, 9]] [[-100, 3]]).countP accHit : ℚ) /
            ((shiftedPairs [[3, 9]] [[-100, 3]]).countP accValid : ℚ) :=
  compute_metrics_accuracy [[3, 9]] [[-100, 3]] [(1 : ℝ)]
    (by simp) (by decide)

/-- C4: on the happy path, the returned perplexity is `exp` of the
arithmetic mean of the per-example losses handed over by
`preprocess_logits_for_metrics`. -/
theorem compute_metrics_perplexity (predIds labelIds : List (List Int))
    (losses : List ℝ) (hl : losses ≠ [])
    (ht : (shiftedPairs predIds labelIds).countP accValid ≠ 0) :
    ∃ m, compute_metrics predIds labelIds losses = Except.ok m
      ∧ m.perplexity = Real.exp (losses.sum / (losses.length : ℝ)) := by
  have hlen : losses.length ≠ 0 := fun h => hl (List.length_eq_zero.mp h)
  exact ⟨_, compute_metrics_ok predIds labelIds losses hlen ht, rfl⟩

/-- C4 witness: with losses `[1, 2]` the perplexity is `exp((1+2)/2)`. -/
theorem compute_metrics_perplexity_witness :
    ∃ m, compute_metrics [[3, 9]] [[-100, 3]] [(1 : ℝ), 2] = Except.ok m
      ∧ m.perplexity =
          Real.exp (([(1 : ℝ), 2].sum) / (([(1 : ℝ), 2].length : ℝ))) :=
  compute_metrics_perplexity [[3, 9]] [[-100, 3]] [(1 : ℝ), 2]
    (by simp) (by decide)

/-- C10: `compute_metrics` succeeds exactly when the loss list is
non-empty and some shifted label differs from `-100`; on an input whose
labels are all `-100` (with a non-empty loss list) the accuracy division
raises. -/
theorem compute_metrics_divisions (predIds labelIds : List (List Int))
    (losses : List ℝ) :
    ((∃ m, compute_metrics predIds labelIds losses = Except.ok m) ↔
        losses ≠ [] ∧ (shiftedPairs predIds labelIds).countP accValid ≠ 0)
    ∧ compute_metrics [[0, 5]] [[-100, -100]] [(1 : ℝ)] =
        Except.error MetricsError.accuracyDivByZero := by
  constructor
  · constructor
    · rintro ⟨m, hm⟩
      by_cases hl : losses.length = 0
      · simp [compute_metrics, hl] at hm
      · by_cases ht : (shiftedPairs predIds labelIds).countP accValid = 0
        · simp [compute_metrics, accuracyCounts_eq, hl, ht] at hm
        · exact ⟨fun h => hl (by simp [h]), ht⟩
    · rintro ⟨hl, ht⟩
      have hlen : losses.length ≠ 0 := fun h => hl (List.length_eq_zero.mp h)
      exact ⟨_, compute_metrics_ok predIds labelIds losses hlen ht⟩
  · rfl

/-- C10 witness: with a valid position and a non-empty loss list the
metrics computation succeeds. -/
theorem compute_metrics_divisions_witness :
    ∃ m, compute_metrics [[3, 9]] [[-100, 3]] [(1 : ℝ)] = Except.ok m :=
  (compute_metrics_divisions [[3, 9]] [[-100, 3]] [(1 : ℝ)]).1.mpr
    ⟨by simp, by decide⟩

/-! ### Theorems about initialize_tokenizer (C2) -/

/-- Resizing to a strictly larger length appends the fresh rows. -/
theorem resizeRows_grow (fresh : Nat → List ℚ) (emb : List (List ℚ))
    (n : Nat) (h : 0 < n) :
    resizeRows fresh (emb.length + n) emb =
      emb ++ (List.range n).map fresh := by
  have hle : ¬emb.length + n ≤ emb.length := by omega
  simp [resizeRows, hle]

/-- Resizing to the current length is the identity. -/
theorem resizeRows_self (fresh : Nat → List ℚ) (emb : List (List ℚ)) :
    resizeRows fresh emb.length emb = emb := by
  simp [resizeRows]

/-- `resize_token_embeddings` always yields exactly `newLen` rows. -/
theorem resizeRows_length (fresh : Nat → List ℚ) (newLen : Nat)
    (emb : List (List ℚ)) : (resizeRows fresh newLen emb).length = newLen := by
  by_cases h : newLen ≤ emb.length
  · simp [resizeRows, h]
  · simp [resizeRows, h]
    omega

/-- Taking everything but the last `ext.length` rows of `front ++ ext`
gives `front`. -/
theorem take_sub_append (front ext : List (List ℚ)) :
    (front ++ ext).take ((front ++ ext).length - ext.length) = front := by
  have h : (front ++ ext).length - ext.length = front.length := by
    simp
  rw [h]
  exact List.take_left front ext

/-- Overwriting the last `ext.length` rows of `front ++ ext` keeps `front`
and replaces the tail by copies of the new row. -/
theorem setLastRows_append (front ext : List (List ℚ)) (row : List ℚ) :
    setLastRows (front ++ ext) ext.length row =
      front ++ List.replicate ext.length row := by
  unfold setLastRows
  rw [take_sub_append]
  have h : min ext.length (front ++ ext).length = ext.length := by
    simp
  rw [h]

/-- `setLastRows` keeps the number of rows. -/
theorem setLastRows_length (emb : List (List ℚ)) (n : Nat) (row : List ℚ) :
    (setLastRows emb n row).length = emb.length := by
  simp [setLastRows]
  omega

/-- Overwriting the last `ext.length` rows of `front ++ ext` with the
mean of the earlier rows appends copies of that mean to `front`. -/
theorem embSurgery_general (emb ext : List (List ℚ)) :
    setLastRows (emb ++ ext) ext.length
        (meanRow ((emb ++ ext).take ((emb ++ ext).length - ext.length))) =
      emb ++ List.replicate ext.length (meanRow emb) := by
  rw [take_sub_append, setLastRows_append]

/-- The embedding surgery of lines 82-95 on one matrix: resize from
`emb.length` to `emb.length + n` rows and overwrite the last `n` rows with
the mean of the rows before them. -/
theorem embedding_update (fresh : Nat → List ℚ) (emb : List (List ℚ))
    (n : Nat) (newLen : Nat) (hlen : newLen = emb.length + n) (hn : 0 < n) :
    setLastRows (resizeRows fresh newLen emb) n
        (meanRow ((resizeRows fresh newLen emb).take
          ((resizeRows fresh newLen emb).length - n))) =
      emb ++ List.replicate n (meanRow emb) := by
  subst hlen
  rw [resizeRows_grow fresh emb n hn]
  generalize hext : (List.range n).map fresh = ext
  have hl : ext.length = n := by
    rw [← hext]
    simp
  subst hl
  exact embSurgery_general emb ext

/-- The first component of `initialize_tokenizer`: the tokenizer with pad
set to unk, the missing end tokens appended to the vocab, and the end
tokens recorded as additional special tokens. -/
theorem initialize_tokenizer_fst (endTokens : List String)
    (freshIn freshOut : Nat → List ℚ) (tok0 : PyTokenizer) (model : PyModel) :
    (initialize_tokenizer endTokens freshIn freshOut tok0 model).1 =
      { tokens := tok0.tokens ++ endTokens.filter (fun v => !tok0.tokens.contains v)
        unkToken := tok0.unkToken
        padToken := some tok0.unkToken
        additionalSpecialTokens := endTokens } := by
  simp only [initialize_tokenizer, add_special_tokens]
  split <;> rfl

/-- `initialize_tokenizer` when new tokens are added: both matrices gain
`n` rows holding the mean of the original rows. -/
theorem initialize_tokenizer_eq_pos (endTokens : List String)
    (freshIn freshOut : Nat → List ℚ) (tok0 : PyTokenizer) (model : PyModel)
    (hin : model.inputEmbeddings.length = tok0.tokens.length)
    (hout : model.outputEmbeddings.length = tok0.tokens.length)
    (hn : 0 < (endTokens.filter (fun v => !tok0.tokens.contains v)).length) :
    initialize_tokenizer endTokens freshIn freshOut tok0 model =
      ({ tokens := tok0.tokens ++ endTokens.filter (fun v => !tok0.tokens.contains v)
         unkToken := tok0.unkToken
         padToken := some tok0.unkToken
         additionalSpecialTokens := endTokens },
       ⟨model.inputEmbeddings
          ++ List.replicate (endTokens.filter (fun v => !tok0.tokens.contains v)).length
              (meanRow model.inputEmbeddings),
        model.outputEmbeddings
          ++ List.replicate (endTokens.filter (fun v => !tok0.tokens.contains v)).length
              (meanRow model.outputEmbeddings)⟩) := by
  simp only [initialize_tokenizer, add_special_tokens]
  rw [if_pos hn, Prod.mk.injEq]
  refine ⟨rfl, ?_⟩
  rw [PyModel.mk.injEq]
  constructor
  · exact embedding_update freshIn model.inputEmbeddings
      (endTokens.filter (fun v => !tok0.tokens.contains v)).length _
      (by simp [hin]) hn
  · exact embedding_update freshOut model.outputEmbeddings
      (endTokens.filter (fun v => !tok0.tokens.contains v)).length _
      (by simp [hout]) hn

/-- `initialize_tokenizer` when every end token is already in the vocab:
the embedding matrices are untouched. -/
theorem initialize_tokenizer_eq_zero (endTokens : List String)
    (freshIn freshOut : Nat → List ℚ) (tok0 : PyTokenizer) (model : PyModel)
    (hin : model.inputEmbeddings.length = tok0.tokens.length)
    (hout : model.outputEmbeddings.length = tok0.tokens.length)
    (hn : (endTokens.filter (fun v => !tok0.tokens.contains v)).length = 0) :
    (initialize_tokenizer endTokens freshIn freshOut tok0 model).2 =
      ⟨model.inputEmbeddings, model.outputEmbeddings⟩ := by
  have hFnil : endTokens.filter (fun v => !tok0.tokens.contains v) = [] :=
    List.length_eq_zero.mp hn
  simp only [initialize_tokenizer, add_special_tokens]
  rw [hFnil]
  rw [if_neg (by simp)]
  simp only [List.append_nil]
  rw [PyModel.mk.injEq]
  constructor
  · rw [← hin, resizeRows_self]
  · rw [← hout, resizeRows_self]

/-- C2: `initialize_tokenizer` records every `EndToken` value as an
additional special token (adding missing ones to the vocab), sets the pad
token to the unk token, resizes both embedding matrices to the new
tokenizer length and, when `n` new tokens were added, overwrites exactly
the last `n` rows of both matrices with the mean of the rows preceding
them, leaving every other row unchanged (and leaving the matrices
untouched when nothing was added). -/
theorem initialize_tokenizer_spec (endTokens : List String)
    (freshIn freshOut : Nat → List ℚ) (tok0 : PyTokenizer) (model : PyModel)
    (hin : model.inputEmbeddings.length = tok0.tokens.length)
    (hout : model.outputEmbeddings.length = tok0.tokens.length) :
    (∀ v ∈ endTokens,
        v ∈ (initialize_tokenizer endTokens freshIn freshOut tok0 model).1.tokens
        ∧ v ∈ (initialize_tokenizer endTokens freshIn freshOut tok0
                model).1.additionalSpecialTokens)
    ∧ (initialize_tokenizer endTokens freshIn freshOut tok0 model).1.padToken
        = some tok0.unkToken
    ∧ (initialize_tokenizer endTokens freshIn freshOut tok0
          model).2.inputEmbeddings.length
        = (initialize_tokenizer endTokens freshIn freshOut tok0 model).1.tokens.length
    ∧ (initialize_tokenizer endTokens freshIn freshOut tok0
          model).2.outputEmbeddings.length
        = (initialize_tokenizer endTokens freshIn freshOut tok0 model).1.tokens.length
    ∧ (0 < (endTokens.filter (fun v => !tok0.tokens.contains v)).length →
        (initialize_tokenizer endTokens freshIn freshOut tok0 model).2.inputEmbeddings
          = model.inputEmbeddings
            ++ List.replicate
                (endTokens.filter (fun v => !tok0.tokens.contains v)).length
                (meanRow model.inputEmbeddings)
        ∧ (initialize_tokenizer endTokens freshIn freshOut tok0 model).2.outputEmbeddings
          = model.outputEmbeddings
            ++ List.replicate
                (endTokens.filter (fun v => !tok0.tokens.contains v)).length
                (meanRow model.outputEmbeddings))
    ∧ ((endTokens.filter (fun v => !tok0.tokens.contains v)).length = 0 →
        (initialize_tokenizer endTokens freshIn freshOut tok0 model).2.inputEmbeddings
          = model.inputEmbeddings
        ∧ (initialize_tokenizer endTokens freshIn freshOut tok0 model).2.outputEmbeddings
          = model.outputEmbeddings) := by
  refine ⟨?_, ?_, ?_, ?_, ?_, ?_⟩
  · intro v hv
    rw [initialize_tokenizer_fst]
    refine ⟨?_, hv⟩
    by_cases hmem : v ∈ tok0.tokens
    · exact List.mem_append.mpr (Or.inl hmem)
    · refine List.mem_append.mpr (Or.inr ?_)
      refine List.mem_filter.mpr ⟨hv, ?_⟩
      simp [hmem]
  · rw [initialize_tokenizer_fst]
  · rcases Nat.eq_zero_or_pos
        (endTokens.filter (fun v => !tok0.tokens.contains v)).length with hz | hp
    · rw [initialize_tokenizer_fst, initialize_tokenizer_eq_zero endTokens
        freshIn freshOut tok0 model hin hout hz]
      have hFnil : endTokens.filter (fun v => !tok0.tokens.contains v) = [] :=
        List.length_eq_zero.mp hz
      dsimp only
      rw [hFnil, List.append_nil]
      exact hin
    · rw [initialize_tokenizer_eq_pos endTokens freshIn freshOut tok0 model
        hin hout hp]
      simp [hin]
  · rcases Nat.eq_zero_or_pos
        (endTokens.filter (fun v => !tok0.tokens.contains v)).length with hz | hp
    · rw [initialize_tokenizer_fst, initialize_tokenizer_eq_zero endTokens
        freshIn freshOut tok0 model hin hout hz]
      have hFnil : endTokens.filter (fun v => !tok0.tokens.contains v) = [] :=
        List.length_eq_zero.mp hz
      dsimp only
      rw [hFnil, List.append_nil]
      exact hout
    · rw [initialize_tokenizer_eq_pos endTokens freshIn freshOut tok0 model
        hin hout hp]
      simp [hout]
  · intro hp
    rw [initialize_tokenizer_eq_pos endTokens freshIn freshOut tok0 model
      hin hout hp]
    exact ⟨rfl, rfl⟩
  · intro hz
    rw [initialize_tokenizer_eq_zero endTokens freshIn freshOut tok0 model
      hin hout hz]
    exact ⟨rfl, rfl⟩

/-- C2 witness: adding two genuinely new end tokens to a two-token vocab
sets pad to unk and appends two mean rows to the input embeddings. -/
theorem initialize_tokenizer_spec_witness :
    (initialize_tokenizer ["e1", "e2"] (fun _ => [0, 0]) (fun _ => [0, 0])
        ⟨["a", "b"], "unk", none, []⟩
        ⟨[[(1 : ℚ), 2], [3, 4]], [[(5 : ℚ), 6], [7, 8]]⟩).1.padToken = some "unk"
    ∧ (initialize_tokenizer ["e1", "e2"] (fun _ => [0, 0]) (fun _ => [0, 0])
        ⟨["a", "b"], "unk", none, []⟩
        ⟨[[(1 : ℚ), 2], [3, 4]], [[(5 : ℚ), 6], [7, 8]]⟩).2.inputEmbeddings
      = [[(1 : ℚ), 2], [3, 4], [2, 3], [2, 3]] := by
  have h := initialize_tokenizer_spec ["e1", "e2"] (fun _ => [0, 0])
      (fun _ => [0, 0]) ⟨["a", "b"], "unk", none, []⟩
      ⟨[[(1 : ℚ), 2], [3, 4]], [[(5 : ℚ), 6], [7, 8]]⟩ rfl rfl
  refine ⟨h.2.1, ?_⟩
  have h5 := (h.2.2.2.2.1 (by decide)).1
  rw [h5]
  norm_num [meanRow, sumRows]
  decide

/-! ### Theorems about preprocess_logits_for_metrics (C5) -/

/-- `view(b, -1)` always produces `b` rows. -/
theorem viewRows_length {α : Type} (b : Nat) (l : List α) :
    (viewRows b l).length = b := by
  simp [viewRows]

/-- Flattening uniformly sized rows multiplies out the length. -/
theorem length_flatten_uniform {α : Type} (k : Nat) :
    ∀ rows : List (List α), (∀ r ∈ rows, r.length = k) →
      rows.flatten.length = rows.length * k := by
  intro rows
  induction rows with
  | nil => intro _; simp
  | cons r rest ih =>
    intro h
    rw [List.flatten_cons, List.length_append, List.length_cons,
      h r (List.mem_cons_self r rest),
      ih (fun x hx => h x (List.mem_cons_of_mem r hx))]
    ring

/-- Reinterpreting the flattening of uniformly sized rows as a matrix of
that many rows recovers the rows: `view` undoes `flatten`. -/
theorem viewRows_flatten {α : Type} (k : Nat) (_hk : 0 < k) :
    ∀ rows : List (List α), (∀ r ∈ rows, r.length = k) →
      viewRows rows.length rows.flatten = rows := by
  intro rows
  induction rows with
  | nil => intro _; simp [viewRows]
  | cons r rest ih =>
    intro h
    have hr : r.length = k := h r (List.mem_cons_self r rest)
    have hrest : ∀ x ∈ rest, x.length = k :=
      fun x hx => h x (List.mem_cons_of_mem r hx)
    have hlen : (r :: rest).flatten.length = (rest.length + 1) * k := by
      rw [length_flatten_uniform k (r :: rest) h, List.length_cons]
    have hq : (r :: rest).flatten.length / (rest.length + 1) = k := by
      rw [hlen]
      exact Nat.mul_div_cancel_left k (Nat.succ_pos rest.length)
    show viewRows (r :: rest).length (r :: rest).flatten = r :: rest
    rw [List.length_cons]
    unfold viewRows
    rw [hq, List.range_succ_eq_map, List.map_cons, List.map_map]
    congr 1
    · rw [Nat.zero_mul, List.drop_zero, List.flatten_cons, ← hr, List.take_left]
    · have hstep : ∀ i : Nat,
          ((r :: rest).flatten).drop ((i + 1) * k) = rest.flatten.drop (i * k) := by
        intro i
        rw [List.flatten_cons]
        have harith : (i + 1) * k = r.length + i * k := by
          rw [hr]
          ring
        rw [harith, List.drop_append]
      rcases Nat.eq_zero_or_pos rest.length with hz | hpos
      · have hnil : rest = [] := List.length_eq_zero.mp hz
        subst hnil
        simp
      · have hq2 : rest.flatten.length / rest.length = k := by
          rw [length_flatten_uniform k rest hrest]
          exact Nat.mul_div_cancel_left k hpos
        conv_rhs => rw [← ih hrest]
        unfold viewRows
        rw [hq2]
        apply List.map_congr_left
        intro i _
        simp only [Function.comp, Nat.succ_eq_add_one]
        rw [hstep i]

/-- Zipping two flattenings of rows with pairwise equal lengths zips the
rows pointwise. -/
theorem flatten_zip_flatten {α β : Type} (as : List (List α)) (bs : List (List β))
    (h : List.Forall₂ (fun a c => a.length = c.length) as bs) :
    as.flatten.zip bs.flatten = (List.zipWith List.zip as bs).flatten := by
  induction h with
  | nil => simp
  | cons hab _ ih =>
    simp only [List.flatten_cons, List.zipWith_cons_cons]
    rw [List.zip_append hab, ih]

/-- Two lists of equal length whose rows all have length `k` are pairwise
length-matched. -/
theorem forall₂_length_of_uniform {α β : Type} (k : Nat) :
    ∀ (as : List (List α)) (bs : List (List β)), as.length = bs.length →
      (∀ a ∈ as, a.length = k) → (∀ c ∈ bs, c.length = k) →
      List.Forall₂ (fun a c => a.length = c.length) as bs := by
  intro as
  induction as with
  | nil =>
    intro bs hlen _ _
    cases bs with
    | nil => exact List.Forall₂.nil
    | cons c bs2 => simp at hlen
  | cons a as2 ih =>
    intro bs hlen ha hb
    cases bs with
    | nil => simp at hlen
    | cons c bs2 =>
      refine List.Forall₂.cons ?_ (ih bs2 ?_ ?_ ?_)
      · rw [ha a (by simp), hb c (by simp)]
      · simpa using hlen
      · exact fun x hx => ha x (by simp [hx])
      · exact fun y hy => hb y (by simp [hy])

/-- Pointwise zips of uniformly sized rows have that uniform size. -/
theorem zipWith_zip_length_uniform {α β : Type} (k : Nat) :
    ∀ (as : List (List α)) (bs : List (List β)),
      (∀ a ∈ as, a.length = k) → (∀ c ∈ bs, c.length = k) →
      ∀ r ∈ List.zipWith List.zip as bs, r.length = k := by
  intro as
  induction as with
  | nil => intro bs _ _ r hr; simp at hr
  | cons a as2 ih =>
    intro bs ha hb r hr
    cases bs with
    | nil => simp at hr
    | cons c bs2 =>
      rw [List.zipWith_cons_cons] at hr
      rcases List.mem_cons.mp hr with h1 | h2
      · subst h1
        rw [List.length_zip, ha a (by simp), hb c (by simp), Nat.min_self]
      · exact ih bs2 (fun x hx => ha x (by simp [hx]))
          (fun y hy => hb y (by simp [hy])) r h2

/-- `zipWith` only depends on the function's values on the lists. -/
theorem zipWith_congr_side {α β γ : Type} (f g : α → β → γ) :
    ∀ (as : List α) (bs : List β), (∀ a ∈ as, ∀ c ∈ bs, f a c = g a c) →
      List.zipWith f as bs = List.zipWith g as bs := by
  intro as
  induction as with
  | nil => intro bs _; simp
  | cons a as2 ih =>
    intro bs h
    cases bs with
    | nil => simp
    | cons c bs2 =>
      rw [List.zipWith_cons_cons, List.zipWith_cons_cons,
        h a (by simp) c (by simp),
        ih bs2 (fun x hx y hy => h x (by simp [hx]) y (by simp [hy]))]

/-- C5 counterexample: on a batch of 1 sequence of length 3 over a vocab
of 2, the returned loss holds one scalar per example (shape
`(batch_size,)`), not `batch_size * (seq_len - 1)` scalars as a
`(batch_size, seq_len - 1)` shape would require. -/
theorem preprocess_loss_shape_counterexample :
    (preprocess_logits_for_metrics 2
        [[[0, 0], [0, 0], [0, 0]]] [[0, 0, 0]]).2.length = 1
    ∧ ¬(preprocess_logits_for_metrics 2
        [[[0, 0], [0, 0], [0, 0]]] [[0, 0, 0]]).2.length = 1 * (3 - 1) := by
  have hl : (preprocess_logits_for_metrics 2
      [[[0, 0], [0, 0], [0, 0]]] [[0, 0, 0]]).2.length = 1 := by
    simp [preprocess_logits_for_metrics, viewRows_length]
  exact ⟨hl, by rw [hl]; decide⟩

/-- C5 (amended): for a rectangular batch of `b` sequences of length
`s ≥ 2` over a vocab of size `vocab`, `preprocess_logits_for_metrics`
returns the argmax predictions with shape `(b, s)` and a loss of shape
`(b,)` whose entry for each example is the mean of the per-position
cross-entropies over all `s - 1` shifted positions, positions with
shifted label `-100` contributing `0` to the sum while still counted in
the denominator. -/
theorem preprocess_logits_amended (vocab : Nat) (logits : List (List (List ℝ)))
    (labels : List (List Int)) (b s : Nat)
    (hlb : logits.length = b) (hlab : labels.length = b)
    (hs : ∀ seq ∈ logits, seq.length = s)
    (hlabs : ∀ row ∈ labels, row.length = s)
    (hv : ∀ seq ∈ logits, ∀ row ∈ seq, row.length = vocab)
    (hs2 : 2 ≤ s) (hv0 : 0 < vocab) :
    (preprocess_logits_for_metrics vocab logits labels).1
        = logits.map (fun seq => seq.map argmaxIdx)
    ∧ (preprocess_logits_for_metrics vocab logits labels).1.length = b
    ∧ (∀ row ∈ (preprocess_logits_for_metrics vocab logits labels).1,
        row.length = s)
    ∧ (preprocess_logits_for_metrics vocab logits labels).2.length = b
    ∧ (preprocess_logits_for_metrics vocab logits labels).2
        = List.zipWith
            (fun seq row =>
              ((seq.dropLast.zip (row.drop 1)).map
                  (fun p => crossEntropyLoss p.1 p.2)).sum / ((s - 1 : Nat) : ℝ))
            logits labels
    ∧ (∀ r : List ℝ, crossEntropyLoss r (-100) = 0) := by
  refine ⟨rfl, by simp [preprocess_logits_for_metrics, hlb], ?_, ?_, ?_,
    fun r => by simp [crossEntropyLoss]⟩
  · intro row hrow
    rw [show (preprocess_logits_for_metrics vocab logits labels).1
        = logits.map (fun seq => seq.map argmaxIdx) from rfl] at hrow
    rw [List.mem_map] at hrow
    obtain ⟨seq, hseq, rfl⟩ := hrow
    rw [List.length_map]
    exact hs seq hseq
  · simp [preprocess_logits_for_metrics, viewRows_length, hlb]
  · -- the loss pipeline
    have hA : ∀ a ∈ logits.map (fun seq => seq.dropLast), a.length = s - 1 := by
      intro a ha
      rw [List.mem_map] at ha
      obtain ⟨seq, hseq, rfl⟩ := ha
      rw [List.length_dropLast, hs seq hseq]
    have hB : ∀ c ∈ labels.map (fun row => row.drop 1), c.length = s - 1 := by
      intro c hc
      rw [List.mem_map] at hc
      obtain ⟨row, hrow, rfl⟩ := hc
      rw [List.length_drop, hlabs row hrow]
    have hrowsA : ∀ r ∈ (logits.map (fun seq => seq.dropLast)).flatten,
        r.length = vocab := by
      intro r hr
      rw [List.mem_flatten] at hr
      obtain ⟨a, haA, hra⟩ := hr
      rw [List.mem_map] at haA
      obtain ⟨seq, hseq, rfl⟩ := haA
      exact hv seq hseq r ((List.dropLast_sublist seq).subset hra)
    have hq : ((logits.map (fun seq => seq.dropLast)).flatten).flatten.length / vocab
        = ((logits.map (fun seq => seq.dropLast)).flatten).length := by
      rw [length_flatten_uniform vocab _ hrowsA, Nat.mul_comm]
      exact Nat.mul_div_cancel_left _ hv0
    have hview1 : viewRows ((logits.map (fun seq => seq.dropLast)).flatten).length
        ((logits.map (fun seq => seq.dropLast)).flatten).flatten
        = (logits.map (fun seq => seq.dropLast)).flatten :=
      viewRows_flatten vocab hv0 _ hrowsA
    have hzip : ((logits.map (fun seq => seq.dropLast)).flatten).zip
        ((labels.map (fun row => row.drop 1)).flatten)
        = (List.zipWith List.zip (logits.map (fun seq => seq.dropLast))
            (labels.map (fun row => row.drop 1))).flatten :=
      flatten_zip_flatten _ _
        (forall₂_length_of_uniform (s - 1) _ _ (by simp [hlb, hlab]) hA hB)
    have hC : ∀ r ∈ (List.zipWith List.zip (logits.map (fun seq => seq.dropLast))
        (labels.map (fun row => row.drop 1))).map
          (List.map (fun p => crossEntropyLoss p.1 p.2)), r.length = s - 1 := by
      intro r hr
      rw [List.mem_map] at hr
      obtain ⟨r0, hr0, rfl⟩ := hr
      rw [List.length_map]
      exact zipWith_zip_length_uniform (s - 1) _ _ hA hB r0 hr0
    have hCl : ((List.zipWith List.zip (logits.map (fun seq => seq.dropLast))
        (labels.map (fun row => row.drop 1))).map
          (List.map (fun p => crossEntropyLoss p.1 p.2))).length = logits.length := by
      simp [hlb, hlab]
    have hs1 : 0 < s - 1 := by omega
    have hstep : (preprocess_logits_for_metrics vocab logits labels).2
        = ((List.zipWith List.zip (logits.map (fun seq => seq.dropLast))
            (labels.map (fun row => row.drop 1))).map
              (List.map (fun p => crossEntropyLoss p.1 p.2))).map
            (fun row => row.sum / (row.length : ℝ)) := by
      simp only [preprocess_logits_for_metrics]
      rw [hq, hview1, hzip, List.map_flatten, ← hCl,
        viewRows_flatten (s - 1) hs1 _ hC]
    rw [hstep, List.map_map, List.map_zipWith, List.zipWith_map]
    apply zipWith_congr_side
    intro seq hseq row hrow
    simp only [Function.comp]
    have hlen2 : ((seq.dropLast.zip (row.drop 1)).map
        (fun p => crossEntropyLoss p.1 p.2)).length = s - 1 := by
      rw [List.length_map, List.length_zip, List.length_dropLast,
        List.length_drop, hs seq hseq, hlabs row hrow, Nat.min_self]
    rw [hlen2]

/-- C5 witness: a rectangular 1-by-2-by-1 batch yields a loss with exactly
one entry. -/
theorem preprocess_logits_amended_witness :
    (preprocess_logits_for_metrics 1 [[[0], [0]]] [[0, 0]]).2.length = 1 :=
  (preprocess_logits_amended 1 [[[0], [0]]] [[0, 0]] 1 2 rfl rfl
    (by simp) (by simp) (by simp) (by norm_num) (by norm_num)).2.2.2.1

end Train
